import Mathlib

/-!
Shallow embedding of `src/src/io/spreadsheet_processor.py`
(class `SpreadsheetProcessor`) and proofs about its specification.

Python strings are modelled as `List Char`; Python `None` / pandas `NaN`
as `Option.none`; a raised Python exception as `Except.error`.
-/

set_option maxRecDepth 10000

namespace SpreadsheetProcessor

/-- Characters of a string literal (model of a Python `str` constant). -/
def chars (t : String) : List Char := t.toList

/-- The accumulation loop of `SpreadsheetProcessor.split_string`
(spreadsheet_processor.py, lines 29-39): `ws` are the words still to be
processed, `parts` the closed chunks, `current` the chunk being built.
When appending the next word (plus a joining space if `current` is
non-empty) would exceed `maxLen`, `current` is pushed — even when it is
empty — and the word starts a new chunk; after the loop the final chunk
is pushed only if non-empty. -/
def splitStringGo (maxLen : Nat) : List (List Char) → List (List Char) → List Char → List (List Char)
  | [], parts, current => if current ≠ [] then parts ++ [current] else parts
  | w :: ws, parts, current =>
    if current.length + w.length + (if current ≠ [] then 1 else 0) > maxLen then
      splitStringGo maxLen ws (parts ++ [current]) w
    else
      splitStringGo maxLen ws parts (if current = [] then w else current ++ [' '] ++ w)

/-- `SpreadsheetProcessor.split_string(text, separator, max_len)`
(spreadsheet_processor.py, lines 24-41): split `text` on `separator`
(every call site passes a single-character separator, modelled as
`Char`), then greedily accumulate the words into chunks joined by a
single space, closing a chunk when the next word would push it past
`max_len` characters. -/
def split_string (text : List Char) (separator : Char) (max_len : Nat) : List (List Char) :=
  splitStringGo max_len (text.splitOn separator) [] []

/-- Python substring containment `needle in hay` (the `state in address`
test on line 70 of spreadsheet_processor.py). -/
def isSubstr (needle hay : List Char) : Bool :=
  hay.tails.any fun t => needle.isPrefixOf t

/-- The fixed gazetteer `malaysia_states`
(spreadsheet_processor.py, lines 49-67), in source order. -/
def malaysia_states : List (List Char) :=
  [chars "JOHOR",
   chars "KEDAH",
   chars "KELANTAN",
   chars "MELAKA",
   chars "NEGERI SEMBILAN",
   chars "PAHANG",
   chars "PULAU PINANG",
   chars "PERAK",
   chars "PERLIS",
   chars "SABAH",
   chars "SARAWAK",
   chars "SELANGOR",
   chars "TERENGGANU",
   chars "WILAYAH PERSEKUTUAN KUALA LUMPUR",
   chars "WILAYAH PERSEKUTUAN PUTRAJAYA",
   chars "WILAYAH PERSEKUTUAN LABUAN",
   chars "FEDERAL TERRITORY OF LABUAN"]

/-- `SpreadsheetProcessor.extract_state(address)`
(spreadsheet_processor.py, lines 45-72): linear scan over
`malaysia_states`, returning the first entry occurring as a substring of
`address`, or `none` when no entry occurs. -/
def extract_state (address : List Char) : Option (List Char) :=
  malaysia_states.find? fun st => isSubstr st address

/-- Fuelled scanner behind `pyReplace`: Python `str.replace(old, new)`
for a non-empty `old`, replacing each leftmost non-overlapping occurrence
and continuing the scan after the inserted `new` (no rescan of spliced
text). The fuel is an upper bound on the number of characters still to be
scanned; `pyReplace` passes the length of the string, which suffices. -/
def replaceFuel (old new : List Char) : Nat → List Char → List Char
  | _, [] => []
  | 0, rest => rest
  | fuel + 1, c :: rest =>
    if old ≠ [] ∧ old.isPrefixOf (c :: rest) then
      new ++ replaceFuel old new fuel (rest.drop (old.length - 1))
    else
      c :: replaceFuel old new fuel rest

/-- Python `s.replace(old, new)` (used on line 82 of
spreadsheet_processor.py): replaces every non-overlapping occurrence of
`old` in `s` by `new`, scanning left to right; an empty `old` inserts
`new` at every character boundary, as in Python. -/
def pyReplace (t old new : List Char) : List Char :=
  if old = [] then new ++ (t.map fun c => c :: new).flatten
  else replaceFuel old new t.length t

/-- Python `s.strip()` (line 82 of spreadsheet_processor.py): remove
leading and trailing whitespace. -/
def pyStrip (t : List Char) : List Char :=
  ((t.dropWhile Char.isWhitespace).reverse.dropWhile Char.isWhitespace).reverse

/-- `SpreadsheetProcessor.extract_city(row, ...)`
(spreadsheet_processor.py, lines 74-82), applied to the row values it
looks up: the full address together with the previously extracted
address line, postcode and state.  The latter three are `Option`s
because the upstream extractions yield `None`/`NaN` on a miss.  The body
runs `address.replace(line, '').replace(postcode, '').replace(state, '').strip()`
unconditionally; when any of the three values is not a string,
`str.replace` raises a `TypeError`, modelled as `Except.error`. -/
def extract_city (address : List Char)
    (address_line postcode state : Option (List Char)) : Except Unit (List Char) :=
  match address_line, postcode, state with
  | some l, some p, some st =>
    .ok (pyStrip (pyReplace (pyReplace (pyReplace address l []) p []) st []))
  | _, _, _ => .error ()

/-- Fuelled decimal digit expansion behind `natDigits`; the fuel only
needs to exceed the number of digits, and `natDigits` passes `n + 1`. -/
def natDigitsAux : Nat → Nat → List Nat
  | 0, _ => []
  | fuel + 1, n => if n < 10 then [n] else natDigitsAux fuel (n / 10) ++ [n % 10]

/-- Decimal digits of a natural number, most significant first. -/
def natDigits (n : Nat) : List Nat := natDigitsAux (n + 1) n

/-- Python `str(x)` for a non-negative integer `x`: its decimal digit
characters. -/
def pyStrNat (n : Nat) : List Char := (natDigits n).map Nat.digitChar

/-- Python `str.zfill(width)` on a digit string: left-pad with `'0'` up
to `width` characters. -/
def zfill (width : Nat) (t : List Char) : List Char :=
  List.replicate (width - t.length) '0' ++ t

/-- Python `sep.join(parts)`: concatenate `parts` with `sep` between
consecutive elements. -/
def joinSep (sep : List Char) : List (List Char) → List Char
  | [] => []
  | [x] => x
  | x :: y :: rest => x ++ sep ++ joinSep sep (y :: rest)

/-- The day/month renderer `'  '.join(list(str(x).zfill(2)))` applied to
every day and month column (spreadsheet_processor.py, lines 140-141,
157-158, 162-163, 167-168, 172-173): zero-pad to 2 digits and join the
digit characters with two spaces. -/
def dayMonthRender (x : Nat) : List Char :=
  joinSep (chars "  ") ((zfill 2 (pyStrNat x)).map fun c => [c])

/-- The `A7_year` renderer `'   '.join(list(str(x).zfill(2)))`
(spreadsheet_processor.py, line 142): zero-pad to only 2 digits and join
the digit characters with three spaces. -/
def yearRenderZ2 (x : Nat) : List Char :=
  joinSep (chars "   ") ((zfill 2 (pyStrNat x)).map fun c => [c])

/-- The `A10`/`A11` year renderer `'   '.join(list(str(x).zfill(4)))`
(spreadsheet_processor.py, lines 159, 164, 169, 174): zero-pad to 4
digits and join the digit characters with three spaces. -/
def yearRenderZ4 (x : Nat) : List Char :=
  joinSep (chars "   ") ((zfill 4 (pyStrNat x)).map fun c => [c])

/-- Split at the first occurrence of `sep`, Python
`text.split(sep, maxsplit... = 1)` as used with `expand=True` on lines
145-146 of spreadsheet_processor.py: `some (before, after)` when `sep`
occurs, `none` when it does not (in which case pandas leaves the second
column undefined and the first is the whole string). -/
def splitFirst (sep : List Char) : List Char → Option (List Char × List Char)
  | [] => if sep.isPrefixOf [] then some ([], []) else none
  | c :: rest =>
    if sep.isPrefixOf (c :: rest) then some ([], (c :: rest).drop sep.length)
    else
      match splitFirst sep rest with
      | some (b, a) => some (c :: b, a)
      | none => none

/-- The literal range separator `" hingga "` of lines 145-146. -/
def hinggaSep : List Char := chars " hingga "

/-- Numeric value of a digit string. -/
def digitsToNat (t : List Char) : Nat :=
  t.foldl (fun acc c => acc * 10 + (c.toNat - 48)) 0

/-- Modelled from the spec: the strict dash-separated day-month-year
parse `pd.to_datetime(x, format='%d-%m-%Y')` performed on each range
half (spreadsheet_processor.py, lines 149-154) lives in the external
pandas library; the spec describes it as a strict `day-month-year`
(dash-separated) parse.  The model requires exactly three dash-separated
all-digit fields, a 4-digit year, and day/month in their calendar
ranges; per-month day limits are omitted. -/
def parseDMY (t : List Char) : Option (Nat × Nat × Nat) :=
  match t.splitOn '-' with
  | [d, m, y] =>
    if d ≠ [] ∧ d.length ≤ 2 ∧ d.all Char.isDigit ∧
       m ≠ [] ∧ m.length ≤ 2 ∧ m.all Char.isDigit ∧
       y.length = 4 ∧ y.all Char.isDigit ∧
       1 ≤ digitsToNat d ∧ digitsToNat d ≤ 31 ∧
       1 ≤ digitsToNat m ∧ digitsToNat m ≤ 12 then
      some (digitsToNat d, digitsToNat m, digitsToNat y)
    else none
  | _ => none

/-- The fixed ordered output column list of the final projection
`df[[...]]` (spreadsheet_processor.py, lines 215-235). -/
def output_columns : List (List Char) :=
  [chars "year_1", chars "year_2", chars "year_3", chars "year_4",
   chars "A1_1", chars "A1_2",
   chars "A2_address_1", chars "A2_address_2", chars "A2_postcode",
   chars "A2_city", chars "A2_state",
   chars "A3", chars "A4", chars "A5", chars "A6",
   chars "A7_day", chars "A7_month", chars "A7_year",
   chars "A8", chars "A9",
   chars "A10_from_day", chars "A10_from_month", chars "A10_from_year",
   chars "A10_to_day", chars "A10_to_month", chars "A10_to_year",
   chars "A11_from_day", chars "A11_from_month", chars "A11_from_year",
   chars "A11_to_day", chars "A11_to_month", chars "A11_to_year",
   chars "A12", chars "A13", chars "A14", chars "A15", chars "A16",
   chars "A17", chars "A18", chars "A19", chars "A20",
   chars "C1_address_1", chars "C1_address_2", chars "C1_postcode",
   chars "C1_city", chars "C1_state", chars "C1_country",
   chars "C2",
   chars "C6a",
   chars "C6b = B5",
   chars "C7a", chars "C7b",
   chars "C8a", chars "C8b",
   chars "C10", chars "C11", chars "C12",
   chars "D1", chars "D2", chars "D3", chars "D4"]

/-- The column projection `df[[...]]` (spreadsheet_processor.py,
lines 215-235) over a table modelled as an association list from column
name to column content: selects the requested columns in the requested
order; a missing column makes pandas raise a `KeyError`, modelled as
`none` — no partial table is produced. -/
def selectColumns (V : Type) (cols : List (List Char))
    (tbl : List (List Char × V)) : Option (List (List Char × V)) :=
  match cols with
  | [] => some []
  | c :: cs =>
    match tbl.lookup c, selectColumns V cs tbl with
    | some v, some rest => some ((c, v) :: rest)
    | _, _ => none

/-! ### Helper lemmas -/

/-- A linear scan returns the unique element satisfying the predicate. -/
theorem find_first_of_unique {α : Type} (p : α → Bool) :
    ∀ (l : List α) (x : α), x ∈ l → p x = true →
      (∀ y ∈ l, p y = true → y = x) → l.find? p = some x := by
  intro l
  induction l with
  | nil => intro x hx _ _; cases hx
  | cons a t ih =>
    intro x hx hpx huniq
    by_cases ha : p a = true
    · rw [List.find?_cons_of_pos _ ha, huniq a (List.mem_cons_self a t) ha]
    · rw [List.find?_cons_of_neg _ (by simp [ha])]
      rcases List.mem_cons.mp hx with h | h
      · subst h; exact absurd hpx ha
      · exact ih x h hpx fun y hy hpy => huniq y (List.mem_cons_of_mem a hy) hpy

/-! ### Claim theorems -/

/-- Claim C5: `extract_state` scans the fixed ordered 17-entry gazetteer
and returns the first entry occurring as a (case-sensitive) substring of
the address, or `none` when none occurs; in particular
`extract_state("12 JALAN ABC, 50000 SELANGOR") = "SELANGOR"`, and for an
address containing exactly one gazetteer name that name is returned. -/
theorem extract_state_spec (address : List Char) :
    malaysia_states.length = 17 ∧
    extract_state (chars "12 JALAN ABC, 50000 SELANGOR") = some (chars "SELANGOR") ∧
    ((∀ st ∈ malaysia_states, isSubstr st address = false) →
      extract_state address = none) ∧
    (∀ st ∈ malaysia_states, isSubstr st address = true →
      (∀ st2 ∈ malaysia_states, isSubstr st2 address = true → st2 = st) →
      extract_state address = some st) := by
  refine ⟨by decide, by decide, ?_, ?_⟩
  · intro h
    exact List.find?_eq_none.mpr fun x hx => by simp [h x hx]
  · intro st hst hsub huniq
    exact find_first_of_unique _ malaysia_states st hst hsub
      fun y hy hpy => huniq y hy hpy

/-- Witness for `extract_state_spec`: the address `"X SELANGOR"` contains
exactly the gazetteer entry `"SELANGOR"`, which is returned. -/
theorem extract_state_spec_witness :
    extract_state (chars "X SELANGOR") = some (chars "SELANGOR") :=
  (extract_state_spec (chars "X SELANGOR")).2.2.2 (chars "SELANGOR")
    (by decide) (by decide) (by decide)

/-- Claim C7: day and month render as their zero-padded 2-digit decimal
digits joined by two spaces (day 7 renders as `"0  7"`), the year as its
digits joined by three spaces; the date 15/03/2021 yields day `"1  5"`,
month `"0  3"` and year `"2   0   2   1"`. -/
theorem date_render_spec :
    (∀ d, d < 100 →
      dayMonthRender d = [Nat.digitChar (d / 10), ' ', ' ', Nat.digitChar (d % 10)]) ∧
    dayMonthRender 7 = chars "0  7" ∧
    dayMonthRender 15 = chars "1  5" ∧
    dayMonthRender 3 = chars "0  3" ∧
    yearRenderZ2 2021 = chars "2   0   2   1" ∧
    yearRenderZ4 2021 = chars "2   0   2   1" :=
  ⟨by decide, by decide, by decide, by decide, by decide, by decide⟩

/-- Witness for `date_render_spec` at day 15. -/
theorem date_render_spec_witness :
    (15 : Nat) < 100 ∧
      dayMonthRender 15 = [Nat.digitChar 1, ' ', ' ', Nat.digitChar 5] :=
  ⟨by decide, date_render_spec.1 15 (by decide)⟩

/-- Claim C1 (against the code): when any of the three extracted inputs
is missing, `extract_city` does not yield `None` — `str.replace` is
called with the missing value and raises a `TypeError` (modelled as
`Except.error`), aborting `process_file`. -/
theorem extract_city_none_raises (address : List Char)
    (address_line postcode state : Option (List Char))
    (h : address_line = none ∨ postcode = none ∨ state = none) :
    extract_city address address_line postcode state = .error () := by
  cases address_line <;> cases postcode <;> cases state <;>
    first
      | rfl
      | (rcases h with h | h | h <;> simp_all)

/-- Witness for `extract_city_none_raises`: an address with no 5-digit
postcode and no gazetteer state, so all three extracted fields are
missing. -/
theorem extract_city_none_raises_witness :
    extract_city (chars "LOT 5 JALAN UNKNOWNVILLE") none none none = .error () :=
  extract_city_none_raises (chars "LOT 5 JALAN UNKNOWNVILLE") none none none
    (Or.inl rfl)

/-- Counterexample to claim C2: the empty input yields no chunks at all
(the final `if current:` push filters the empty accumulator), not one
empty-string chunk; and a single word longer than `max_len` yields two
chunks — an empty chunk followed by the word — not a single oversized
chunk of a non-empty-string sequence. -/
theorem split_string_empty_counterexample :
    split_string [] ' ' 50 = [] ∧
    ([] : List (List Char)) ≠ [[]] ∧
    split_string (chars "AAAA") ' ' 2 = [[], chars "AAAA"] :=
  ⟨by decide, by decide, by decide⟩

/-- Claim C2 as amended: the empty input string yields the empty chunk
list, and a single word longer than `max_len` becomes an empty chunk
followed by the word itself, untruncated. -/
theorem split_string_chunks (sep : Char) (maxLen : Nat) (w : List Char)
    (hw : w ≠ []) (hsep : sep ∉ w) (hlong : maxLen < w.length) :
    split_string [] sep maxLen = [] ∧
    split_string w sep maxLen = [[], w] := by
  constructor
  · unfold split_string
    rw [List.splitOn_nil]
    simp [splitStringGo]
  · have hsplit : w.splitOn sep = [w] := by
      simp only [List.splitOn]
      refine List.splitOnP_eq_single _ _ fun x hx => ?_
      simp only [beq_iff_eq]
      rintro rfl
      exact hsep hx
    unfold split_string
    rw [hsplit]
    simp only [splitStringGo]
    rw [if_pos (by simpa using hlong), if_pos hw]
    rfl

/-- Witness for `split_string_chunks` at the oversized word `"AAAA"`
with `max_len = 2`. -/
theorem split_string_chunks_witness :
    split_string [] ' ' 2 = [] ∧ split_string (chars "AAAA") ' ' 2 = [[], chars "AAAA"] :=
  split_string_chunks ' ' 2 (chars "AAAA") (by decide) (by decide) (by decide)

/-- Invariant of the wrapping loop: every produced chunk that exceeds
`maxLen` is one of the original words — a chunk built by joining words
never exceeds `maxLen`, because the guard closes it first. -/
theorem splitStringGo_oversized (maxLen : Nat) (words : List (List Char)) :
    ∀ (ws parts : List (List Char)) (current : List Char),
      (∀ w ∈ ws, w ∈ words) →
      (∀ c ∈ parts, maxLen < c.length → c ∈ words) →
      (maxLen < current.length → current ∈ words) →
      ∀ c ∈ splitStringGo maxLen ws parts current, maxLen < c.length → c ∈ words := by
  intro ws
  induction ws with
  | nil =>
    intro parts current _ hparts hcur c hc hlen
    simp only [splitStringGo] at hc
    split at hc
    · rcases List.mem_append.mp hc with h | h
      · exact hparts c h hlen
      · rw [List.mem_singleton] at h; subst h; exact hcur hlen
    · exact hparts c hc hlen
  | cons w ws ih =>
    intro parts current hws hparts hcur c hc hlen
    simp only [splitStringGo] at hc
    have hparts2 : ∀ d ∈ parts ++ [current], maxLen < d.length → d ∈ words := by
      intro d hd hdlen
      rcases List.mem_append.mp hd with h | h
      · exact hparts d h hdlen
      · rw [List.mem_singleton] at h; subst h; exact hcur hdlen
    have hwstail : ∀ x ∈ ws, x ∈ words :=
      fun x hx => hws x (List.mem_cons_of_mem _ hx)
    have hwmem : w ∈ words := hws w (List.mem_cons_self _ _)
    by_cases hc0 : current = []
    · subst hc0
      simp only [ne_eq, not_true_eq_false, if_false, if_pos rfl,
        List.length_nil] at hc
      split at hc
      · exact ih (parts ++ [[]]) w hwstail hparts2 (fun _ => hwmem) c hc hlen
      · exact ih parts w hwstail hparts (fun _ => hwmem) c hc hlen
    · simp only [ne_eq, hc0, not_false_eq_true, if_true, if_neg hc0] at hc
      split at hc
      · exact ih (parts ++ [current]) w hwstail hparts2 (fun _ => hwmem) c hc hlen
      · rename_i hcond
        refine ih parts (current ++ [' '] ++ w) hwstail hparts ?_ c hc hlen
        intro hlen2
        exfalso
        rw [gt_iff_lt, Nat.not_lt] at hcond
        simp only [List.length_append, List.length_singleton] at hlen2
        omega

/-- Claim C3: `split_string` implements greedy word-wrap — the example
`split_string("AAAA BBBB CCCC", " ", 9) = ["AAAA BBBB", "CCCC"]` holds,
and for all inputs any chunk exceeding `max_len` is a single word of the
input (an oversized word kept whole); every other chunk stays within
`max_len`. -/
theorem split_string_greedy :
    split_string (chars "AAAA BBBB CCCC") ' ' 9 = [chars "AAAA BBBB", chars "CCCC"] ∧
    ∀ (text : List Char) (sep : Char) (maxLen : Nat) (c : List Char),
      c ∈ split_string text sep maxLen → maxLen < c.length →
        c ∈ text.splitOn sep := by
  refine ⟨by decide, ?_⟩
  intro text sep maxLen c hc hlen
  exact splitStringGo_oversized maxLen (text.splitOn sep) (text.splitOn sep) [] []
    (fun x hx => hx) (by simp) (fun h => absurd h (by simp)) c hc hlen

/-- Witness for `split_string_greedy`: the oversized chunk `"AAAA"`
produced at `max_len = 2` is a word of the input. -/
theorem split_string_greedy_witness :
    chars "AAAA" ∈ (chars "AAAA BB").splitOn ' ' :=
  split_string_greedy.2 (chars "AAAA BB") ' ' 2 (chars "AAAA")
    (by decide) (by decide)

/-- Unfolding of `joinSep` on a list with at least two elements. -/
theorem joinSep_cons_ne (sep x : List Char) (l : List (List Char)) (hl : l ≠ []) :
    joinSep sep (x :: l) = x ++ sep ++ joinSep sep l := by
  cases l with
  | nil => exact absurd rfl hl
  | cons y t => rfl

/-- `joinSep` agrees with `List.intercalate`. -/
theorem joinSep_eq_intercalate (sep : List Char) :
    ∀ l, joinSep sep l = List.intercalate sep l := by
  intro l
  induction l with
  | nil => rfl
  | cons x l ih =>
    cases l with
    | nil => simp [joinSep, List.intercalate]
    | cons y t =>
      rw [joinSep_cons_ne sep x (y :: t) (by simp), ih]
      simp [List.intercalate, List.intersperse]

/-- Joining with `sep` identifies a fused pair with its two halves. -/
theorem joinSep_merge (sep : List Char) :
    ∀ (a : List (List Char)) (x y : List Char) (b : List (List Char)),
      joinSep sep (a ++ (x ++ sep ++ y) :: b) = joinSep sep (a ++ x :: y :: b) := by
  intro a
  induction a with
  | nil =>
    intro x y b
    cases b with
    | nil => rfl
    | cons z zs =>
      rw [List.nil_append, List.nil_append,
        joinSep_cons_ne sep _ (z :: zs) (by simp),
        joinSep_cons_ne sep x (y :: z :: zs) (by simp),
        joinSep_cons_ne sep y (z :: zs) (by simp)]
      simp [List.append_assoc]
  | cons a2 as ih =>
    intro x y b
    rw [List.cons_append, List.cons_append,
      joinSep_cons_ne sep a2 (as ++ (x ++ sep ++ y) :: b) (by simp),
      joinSep_cons_ne sep a2 (as ++ x :: y :: b) (by simp), ih]

/-- Invariant of the wrapping loop: joining the produced chunks with a
single space equals joining the closed chunks, the current chunk and the
remaining words with a single space — chunks only regroup the words
around the same single-space glue. -/
theorem splitStringGo_join (maxLen : Nat) :
    ∀ (ws parts : List (List Char)) (current : List Char),
      current ≠ [] → (∀ w ∈ ws, w ≠ []) →
      joinSep [' '] (splitStringGo maxLen ws parts current) =
        joinSep [' '] (parts ++ current :: ws) := by
  intro ws
  induction ws with
  | nil =>
    intro parts current hcur _
    simp only [splitStringGo, if_pos hcur]
  | cons w ws ih =>
    intro parts current hcur hws
    have hw : w ≠ [] := hws w (List.mem_cons_self _ _)
    have hwstail : ∀ x ∈ ws, x ≠ [] :=
      fun x hx => hws x (List.mem_cons_of_mem _ hx)
    simp only [splitStringGo, ne_eq, hcur, not_false_eq_true, if_true,
      if_false, ite_true, ite_false, if_neg hcur]
    split
    · rw [ih (parts ++ [current]) w hw hwstail]
      simp [List.append_assoc]
    · rw [ih parts (current ++ [' '] ++ w) (by simp) hwstail]
      exact joinSep_merge [' '] parts current w ws

/-- Counterexample to claim C4: for separator `","` the chunks are glued
internally with `" "`, not the separator, so rejoining with `","` does
not reconstruct the token sequence; the round-trip also fails for the
space separator when the input has an empty token (leading space) or a
leading oversized word (which emits an empty chunk). -/
theorem split_string_roundtrip_counterexample :
    (List.splitOn ',' (joinSep [','] (split_string (chars "A,B") ',' 62)) =
      [chars "A B"]) ∧
    (chars "A,B").splitOn ',' = [chars "A", chars "B"] ∧
    ([chars "A B"] : List (List Char)) ≠ [chars "A", chars "B"] ∧
    (List.splitOn ' ' (joinSep [' '] (split_string (chars " A") ' ' 50)) =
      [chars "A"]) ∧
    (chars " A").splitOn ' ' = [[], chars "A"] ∧
    ([chars "A"] : List (List Char)) ≠ [[], chars "A"] ∧
    (List.splitOn ' ' (joinSep [' '] (split_string (chars "AAAA") ' ' 2)) =
      [[], chars "AAAA"]) ∧
    (chars "AAAA").splitOn ' ' = [chars "AAAA"] ∧
    ([[], chars "AAAA"] : List (List Char)) ≠ [chars "AAAA"] :=
  ⟨by decide, by decide, by decide, by decide, by decide, by decide,
   by decide, by decide, by decide⟩

/-- Claim C4 as amended: for the space separator, when every token of
the input is non-empty and the first token does not exceed `max_len`,
the chunks rejoined with the separator reconstruct the original token
sequence. -/
theorem split_string_roundtrip (text : List Char) (maxLen : Nat)
    (h1 : ∀ t ∈ text.splitOn ' ', t ≠ [])
    (h2 : ∀ t ∈ (text.splitOn ' ').take 1, t.length ≤ maxLen) :
    List.splitOn ' ' (joinSep [' '] (split_string text ' ' maxLen)) =
      text.splitOn ' ' := by
  suffices hj : joinSep [' '] (split_string text ' ' maxLen) = text by rw [hj]
  obtain ⟨w, ws, hw⟩ : ∃ w ws, text.splitOn ' ' = w :: ws := by
    cases h : text.splitOn ' ' with
    | nil =>
      exfalso
      have := List.splitOnP_ne_nil (fun c => c == ' ') text
      simp only [List.splitOn] at h
      exact this h
    | cons a l => exact ⟨a, l, rfl⟩
  have hwfit : w.length ≤ maxLen := h2 w (by rw [hw]; simp)
  have hwne : w ≠ [] := h1 w (by rw [hw]; simp)
  have hwstail : ∀ t ∈ ws, t ≠ [] :=
    fun t ht => h1 t (by rw [hw]; exact List.mem_cons_of_mem _ ht)
  unfold split_string
  rw [hw]
  simp only [splitStringGo, ne_eq, not_true_eq_false, if_false, ite_true,
    ite_false, List.length_nil, if_pos rfl]
  rw [if_neg (by omega)]
  rw [splitStringGo_join maxLen ws [] w hwne hwstail, List.nil_append, ← hw,
    joinSep_eq_intercalate]
  exact List.intercalate_splitOn text ' '

/-- Witness for `split_string_roundtrip` on `"AB C"` with limit 52. -/
theorem split_string_roundtrip_witness :
    List.splitOn ' ' (joinSep [' '] (split_string (chars "AB C") ' ' 52)) =
      (chars "AB C").splitOn ' ' :=
  split_string_roundtrip (chars "AB C") 52 (by decide) (by decide)

/-- Counterexample to claim C6: removing the extracted substrings by
single-pass replacement can splice a new occurrence together.  For the
address `"A 12345 JOHJOHOROR"` the extracted state is `"JOHOR"` (as
`extract_state` confirms), yet after removing line `"A"`, postcode
`"12345"` and state `"JOHOR"`, the trimmed remainder is `"JOHOR"` —
which still contains the state substring. -/
theorem extract_city_contains_counterexample :
    extract_state (chars "A 12345 JOHJOHOROR") = some (chars "JOHOR") ∧
    extract_city (chars "A 12345 JOHJOHOROR") (some (chars "A"))
      (some (chars "12345")) (some (chars "JOHOR")) = .ok (chars "JOHOR") ∧
    isSubstr (chars "JOHOR") (chars "JOHOR") = true :=
  ⟨by decide, rfl, by decide⟩

/-- Claim C6 as amended: with all three inputs present, `extract_city`
returns the address with the occurrences of line, postcode and state
removed by literal left-to-right single-pass replacement and the
remainder trimmed; the result is not in general free of the three
substrings (a removal can splice a new occurrence), but it is in the
specification's own example, where the remainder is empty. -/
theorem extract_city_some (address line postcode state : List Char) :
    extract_city address (some line) (some postcode) (some state) =
      .ok (pyStrip (pyReplace (pyReplace (pyReplace address line []) postcode []) state [])) ∧
    extract_city (chars "NO 1 JALAN X, 50000 KUALA LUMPUR")
      (some (chars "NO 1 JALAN X,")) (some (chars "50000"))
      (some (chars "KUALA LUMPUR")) = .ok [] ∧
    isSubstr (chars "NO 1 JALAN X,") [] = false ∧
    isSubstr (chars "50000") [] = false ∧
    isSubstr (chars "KUALA LUMPUR") [] = false :=
  ⟨rfl, rfl, by decide, by decide, by decide⟩

/-- If `splitFirst` finds no occurrence, the separator is not a
substring. -/
theorem splitFirst_none (sep : List Char) :
    ∀ t, splitFirst sep t = none → isSubstr sep t = false := by
  intro t
  induction t with
  | nil =>
    intro h
    simp only [splitFirst] at h
    split at h
    · cases h
    · rename_i hpre
      simp only [isSubstr, List.tails, List.any_cons, List.any_nil,
        Bool.or_false]
      exact Bool.eq_false_iff.mpr hpre
  | cons c rest ih =>
    intro h
    simp only [splitFirst] at h
    split at h
    · cases h
    · rename_i hpre
      have hrest : splitFirst sep rest = none := by
        cases hsr : splitFirst sep rest with
        | none => rfl
        | some p => rw [hsr] at h; cases h
      simp only [isSubstr, List.tails, List.any_cons]
      rw [Bool.or_eq_false_iff]
      exact ⟨Bool.eq_false_iff.mpr hpre, by simpa [isSubstr] using ih hrest⟩

/-- If `splitFirst` splits, the input is the two halves around the
separator. -/
theorem splitFirst_some (sep : List Char) :
    ∀ t b a, splitFirst sep t = some (b, a) → t = b ++ sep ++ a := by
  intro t
  induction t with
  | nil =>
    intro b a h
    simp only [splitFirst] at h
    split at h
    · rename_i hpre
      have hsep : sep = [] := by
        cases sep with
        | nil => rfl
        | cons x xs => simp [List.isPrefixOf] at hpre
      injection h with h2
      injection h2 with hb ha
      subst hb; subst ha; subst hsep; rfl
    · cases h
  | cons c rest ih =>
    intro b a h
    simp only [splitFirst] at h
    split at h
    · rename_i hpre
      obtain ⟨u, hu⟩ := List.isPrefixOf_iff_prefix.mp hpre
      injection h with h2
      injection h2 with hb ha
      subst hb
      rw [← hu, List.drop_left] at ha
      subst ha
      rw [List.nil_append, hu]
    · rename_i hpre
      cases hsr : splitFirst sep rest with
      | none => rw [hsr] at h; cases h
      | some p =>
        obtain ⟨b2, a2⟩ := p
        rw [hsr] at h
        injection h with h2
        injection h2 with hb ha
        subst hb; subst ha
        rw [List.cons_append, List.cons_append, ← ih b2 a2 hsr]

/-- Claim C8: the A10/A11 field text is split on the literal separator
`" hingga "` into the part before and the part after the first
occurrence (`none` for the second when the separator is absent, in which
case the whole string is the `from` half); the example
`"01-01-2020 hingga 31-12-2020"` splits into `"01-01-2020"` and
`"31-12-2020"`, and each half parses in strict dash-separated
day-month-year format. -/
theorem hingga_split_spec :
    splitFirst hinggaSep (chars "01-01-2020 hingga 31-12-2020") =
      some (chars "01-01-2020", chars "31-12-2020") ∧
    parseDMY (chars "01-01-2020") = some (1, 1, 2020) ∧
    parseDMY (chars "31-12-2020") = some (31, 12, 2020) ∧
    (∀ t, splitFirst hinggaSep t = none → isSubstr hinggaSep t = false) ∧
    (∀ t b a, splitFirst hinggaSep t = some (b, a) → t = b ++ hinggaSep ++ a) :=
  ⟨by decide, by decide, by decide, splitFirst_none hinggaSep,
   splitFirst_some hinggaSep⟩

/-- Witness for `hingga_split_spec`: the example decomposes around the
separator. -/
theorem hingga_split_spec_witness :
    chars "01-01-2020 hingga 31-12-2020" =
      chars "01-01-2020" ++ hinggaSep ++ chars "31-12-2020" :=
  hingga_split_spec.2.2.2.2 (chars "01-01-2020 hingga 31-12-2020")
    (chars "01-01-2020") (chars "31-12-2020") (by decide)

/-- A successful projection returns exactly the requested columns, in
the requested order. -/
theorem selectColumns_map_fst (V : Type) :
    ∀ (cols : List (List Char)) (tbl : List (List Char × V)) res,
      selectColumns V cols tbl = some res → res.map Prod.fst = cols := by
  intro cols
  induction cols with
  | nil =>
    intro tbl res h
    simp only [selectColumns] at h
    injection h with h
    subst h
    rfl
  | cons c cs ih =>
    intro tbl res h
    simp only [selectColumns] at h
    cases hl : tbl.lookup c with
    | none => rw [hl] at h; cases h
    | some v =>
      rw [hl] at h
      cases hr : selectColumns V cs tbl with
      | none => rw [hr] at h; cases h
      | some rest =>
        rw [hr] at h
        injection h with h
        subst h
        simp only [List.map_cons]
        rw [ih tbl rest hr]

/-- A single missing column makes the projection fail as a whole: no
partial table is produced. -/
theorem selectColumns_missing (V : Type) :
    ∀ (cols : List (List Char)) (tbl : List (List Char × V)) c,
      c ∈ cols → tbl.lookup c = none → selectColumns V cols tbl = none := by
  intro cols
  induction cols with
  | nil => intro tbl c hc; cases hc
  | cons d cs ih =>
    intro tbl c hc hnone
    simp only [selectColumns]
    rcases List.mem_cons.mp hc with h | h
    · subst h
      rw [hnone]
    · rw [ih tbl c h hnone]
      cases tbl.lookup d <;> rfl

/-- When every requested column is present the projection succeeds. -/
theorem selectColumns_total (V : Type) :
    ∀ (cols : List (List Char)) (tbl : List (List Char × V)),
      (∀ c ∈ cols, (tbl.lookup c).isSome) →
      (selectColumns V cols tbl).isSome := by
  intro cols
  induction cols with
  | nil => intro tbl _; rfl
  | cons c cs ih =>
    intro tbl h
    simp only [selectColumns]
    have hc := h c (List.mem_cons_self _ _)
    cases hl : tbl.lookup c with
    | none => rw [hl] at hc; cases hc
    | some v =>
      have := ih tbl fun d hd => h d (List.mem_cons_of_mem _ hd)
      cases hr : selectColumns V cs tbl with
      | none => rw [hr] at this; cases this
      | some rest => rfl

/-- Claim C9: the final projection keeps exactly the fixed, explicitly
ordered 61-entry canonical column list (year_1..year_4 through D4, Part
C fields included); if any required column is absent the projection
signals a lookup error (`none`, modelling the pandas `KeyError`) and no
partial output is returned. -/
theorem output_projection_spec :
    output_columns.length = 61 ∧
    (∀ (V : Type) (tbl : List (List Char × V)) res,
      selectColumns V output_columns tbl = some res →
        res.map Prod.fst = output_columns) ∧
    (∀ (V : Type) (tbl : List (List Char × V)) c, c ∈ output_columns →
      tbl.lookup c = none → selectColumns V output_columns tbl = none) ∧
    (∀ (V : Type) (tbl : List (List Char × V)),
      (∀ c ∈ output_columns, (tbl.lookup c).isSome) →
        (selectColumns V output_columns tbl).isSome) :=
  ⟨by decide,
   fun V tbl res => selectColumns_map_fst V output_columns tbl res,
   fun V tbl c => selectColumns_missing V output_columns tbl c,
   fun V tbl => selectColumns_total V output_columns tbl⟩

/-- Witness for `output_projection_spec`: a table missing `year_1` makes
the whole projection fail. -/
theorem output_projection_spec_witness :
    selectColumns Nat output_columns [] = none :=
  output_projection_spec.2.2.1 Nat [] (chars "year_1") (by decide) rfl

/-- `natDigitsAux` does not depend on the fuel once it exceeds the
argument. -/
theorem natDigitsAux_fuel_eq :
    ∀ f g n, n < f → n < g → natDigitsAux f n = natDigitsAux g n := by
  intro f
  induction f with
  | zero => intro g n h; exact absurd h (Nat.not_lt_zero n)
  | succ f ih =>
    intro g n hf hg
    cases g with
    | zero => exact absurd hg (Nat.not_lt_zero n)
    | succ g =>
      simp only [natDigitsAux]
      by_cases h10 : n < 10
      · rw [if_pos h10, if_pos h10]
      · rw [if_neg h10, if_neg h10]
        have hdiv : n / 10 < n := Nat.div_lt_self (by omega) (by omega)
        rw [ih g (n / 10) (by omega) (by omega)]

/-- Recurrence for `natDigits`. -/
theorem natDigits_eq (n : Nat) :
    natDigits n = if n < 10 then [n] else natDigits (n / 10) ++ [n % 10] := by
  show natDigitsAux (n + 1) n = _
  rw [natDigitsAux]
  by_cases h10 : n < 10
  · rw [if_pos h10, if_pos h10]
  · rw [if_neg h10, if_neg h10]
    have hdiv : n / 10 < n := Nat.div_lt_self (by omega) (by omega)
    rw [natDigitsAux_fuel_eq n (n / 10 + 1) (n / 10) (by omega) (by omega)]
    rfl

/-- Every number has at least one digit. -/
theorem natDigits_length_pos (n : Nat) : 1 ≤ (natDigits n).length := by
  rw [natDigits_eq]
  split
  · rfl
  · rw [List.length_append, List.length_singleton]
    omega

/-- A number of at least 1000 has at least 4 digits. -/
theorem natDigits_length_ge4 (n : Nat) (h : 1000 ≤ n) :
    4 ≤ (natDigits n).length := by
  rw [natDigits_eq, if_neg (by omega), List.length_append,
    List.length_singleton]
  rw [natDigits_eq, if_neg (by omega : ¬n / 10 < 10), List.length_append,
    List.length_singleton]
  rw [natDigits_eq, if_neg (by omega : ¬n / 10 / 10 < 10), List.length_append,
    List.length_singleton]
  have := natDigits_length_pos (n / 10 / 10 / 10)
  omega

/-- Claim C10: for 4-digit years the `A7_year` renderer (zfill(2),
three-space join) and the `A10`/`A11` year renderer (zfill(4),
three-space join) produce the identical spaced string; the padding
inconsistency changes the rendered output exactly for years below
1000. -/
theorem year_render_consistency (y : Nat) (hy : y ≤ 9999) :
    (1000 ≤ y → yearRenderZ2 y = yearRenderZ4 y) ∧
    (y < 1000 → yearRenderZ2 y ≠ yearRenderZ4 y) := by
  constructor
  · intro h4
    have hlen : 4 ≤ (pyStrNat y).length := by
      rw [pyStrNat, List.length_map]
      exact natDigits_length_ge4 y h4
    unfold yearRenderZ2 yearRenderZ4 zfill
    have e2 : 2 - (pyStrNat y).length = 0 := by omega
    have e4 : 4 - (pyStrNat y).length = 0 := by omega
    rw [e2, e4]
  · intro h
    have hsmall : ∀ z, z < 1000 → yearRenderZ2 z ≠ yearRenderZ4 z := by decide
    exact hsmall y h

/-- Witness for `year_render_consistency` at year 2021. -/
theorem year_render_consistency_witness :
    yearRenderZ2 2021 = yearRenderZ4 2021 :=
  (year_render_consistency 2021 (by decide)).1 (by decide)

end SpreadsheetProcessor
